import Mathlib

/-!
Verification of the dictation grading engine and playback/session logic of
`static/js/dictation.js` (DailyFluent).  Strings are modelled as lists of
characters (JS strings are sequences of code units; all data of interest here
is plain text).  Every definition is a direct translation of the corresponding
JavaScript function; doc comments name the source symbol.
-/

namespace DF

/-- A JS string, modelled as a list of characters. -/
abbrev Str := List Char

/-- Convert a Lean string literal to the model type. -/
def str (s : String) : Str := s.toList

/-- Code points of the punctuation class stripped by `normalizeWord` /
`normalizeForCompare`: `.,?!;:'"…()[]{}-–—` (source line 21/28 regex). -/
def punctCodes : List Nat :=
  [46, 44, 63, 33, 59, 58, 39, 34, 8230, 40, 41, 91, 93, 123, 125, 45, 8211, 8212]

def isPunct (ch : Char) : Bool := punctCodes.contains ch.toNat

/-- Whitespace recognised by the `\s` regex class and `String.prototype.trim`
(ASCII subset: space, tab, LF, VT, FF, CR; the inputs of interest contain no
exotic Unicode spaces). -/
def wsCodes : List Nat := [32, 9, 10, 11, 12, 13]

def isWS (ch : Char) : Bool := wsCodes.contains ch.toNat

/-- `String.prototype.toLowerCase` (ASCII range, as in the exercise data). -/
def mapLower (s : Str) : Str := s.map Char.toLower

/-- `.replace(/[.,?!;:'"…()[\]{}\-–—]/g, '')`. -/
def stripPunct (s : Str) : Str := s.filter (fun ch => !isPunct ch)

/-- `String.prototype.trim`. -/
def trim (s : Str) : Str := ((s.dropWhile isWS).reverse.dropWhile isWS).reverse

/-- Helper for `.replace(/\s+/g, ' ')`: the flag records whether the previous
character was whitespace (each maximal whitespace run becomes one space). -/
def collapseWSAux : Bool → Str → Str
  | _, [] => []
  | inRun, ch :: cs =>
    if isWS ch then
      if inRun then collapseWSAux true cs else ' ' :: collapseWSAux true cs
    else ch :: collapseWSAux false cs

/-- `.replace(/\s+/g, ' ')`. -/
def collapseWS (s : Str) : Str := collapseWSAux false s

/-- Source `normalizeWord` (line 20): lowercase, strip punctuation, trim. -/
def normalizeWord (w : Str) : Str := trim (stripPunct (mapLower w))

/-- Source `normalizeForCompare` (line 27): lowercase, strip punctuation,
collapse whitespace, trim. -/
def normalizeForCompare (s : Str) : Str := trim (collapseWS (stripPunct (mapLower s)))

/-- Helper for `split(/\s+/).filter(w => w)`: accumulates the current word in
reverse. -/
def splitWSAux : Str → Str → List Str
  | [], acc => if acc.isEmpty then [] else [acc.reverse]
  | ch :: cs, acc =>
    if isWS ch then
      if acc.isEmpty then splitWSAux cs [] else acc.reverse :: splitWSAux cs []
    else splitWSAux cs (ch :: acc)

/-- `s.split(/\s+/).filter(w => w)`: the maximal whitespace-free runs of `s`. -/
def splitWS (s : Str) : List Str := splitWSAux s []

/-- One row step of the edit-distance recurrence: given the distance function
`dxs` of the tail `xs`, computes `b ↦ levenshtein (x :: xs) b`.  The three
arguments of `min` are, in source order (line 45), `dp[i-1][j-1]`, `dp[i-1][j]`
and `dp[i][j-1]`. -/
def levRow (dxs : Str → Nat) (x : Char) : Str → Nat
  | [] => dxs [] + 1
  | y :: ys => if x = y then dxs ys else 1 + min (dxs ys) (min (dxs (y :: ys)) (levRow dxs x ys))

def levFun : Str → Str → Nat
  | [] => fun b => b.length
  | x :: xs => levRow (levFun xs) x

/-- Source `levenshtein` (line 34): unit-cost edit distance.  The source fills
a DP table over prefixes; this is the same recurrence expressed as structural
recursion (the table is its memoisation). -/
def levenshtein (a b : Str) : Nat := levFun a b

/-- Word-pair classification result of `wordMatchType`, and the item types of
the alignment (`exact`/`near`/`missing`/`extra`). -/
inductive MType where
  | exact
  | near
  | wrong
  | missing
  | extra
deriving DecidableEq, BEq, Repr

/-- Source `wordMatchType` (line 58). -/
def wordMatchType (userWord correctWord : Str) : MType :=
  let u := normalizeWord userWord
  let c := normalizeWord correctWord
  if u = [] ∨ c = [] then MType.wrong
  else if u = c then MType.exact
  else
    let threshold : Nat := if c.length ≤ 3 then 0 else if c.length ≤ 5 then 1 else 2
    if threshold = 0 then MType.wrong
    else if levenshtein u c ≤ threshold then MType.near else MType.wrong

/-- One output item of `lcsAlign` (source line 103/106/109):
`{ type, userWord, correctWord }`, `none` standing for JS `null`. -/
structure AlignItem where
  type : MType
  userWord : Option Str
  correctWord : Option Str
deriving DecidableEq, BEq, Repr

/-- The precomputed match-type table `mt[i][j]` of `lcsAlign` (source line 79):
defined wherever `i < userWords.length` and `j < correctWords.length`, which is
the only region the algorithm reads. -/
def mtype (userWords correctWords : List Str) (i j : Nat) : MType :=
  wordMatchType (userWords.getD i []) (correctWords.getD j [])

/-- One row of the LCS DP table: given row `i` as `prev` and the match types
`mti j = mt[i][j]`, computes row `i+1` (source lines 88–96). -/
def lcsRow (prev : Nat → Nat) (mti : Nat → MType) : Nat → Nat
  | 0 => 0
  | j + 1 =>
    if mti j ≠ MType.wrong then prev j + 1
    else max (prev (j + 1)) (lcsRow prev mti j)

/-- Rows of the LCS DP table of `lcsAlign`: `lcsDpFun u c i` is row `i`
(row 0 and column 0 stay 0, as in the source's `fill(0)`). -/
def lcsDpFun (userWords correctWords : List Str) : Nat → Nat → Nat
  | 0 => fun _ => 0
  | i + 1 => lcsRow (lcsDpFun userWords correctWords i) (mtype userWords correctWords i)

/-- `dp[i][j]` of `lcsAlign` (source line 87). -/
def lcsDp (userWords correctWords : List Str) (i j : Nat) : Nat :=
  lcsDpFun userWords correctWords i j

/-- The branch taken by one iteration of the backtrack loop of `lcsAlign`
(source lines 101–112). -/
inductive BtStep where
  | done
  | matched
  | missing
  | extra
deriving DecidableEq, Repr

/-- The condition chain of the backtrack loop body, in source order:
loop guard `i > 0 || j > 0`; match branch
`i > 0 && j > 0 && mt[i-1][j-1] !== 'wrong' && dp[i][j] === dp[i-1][j-1] + 1`;
missing branch `j > 0 && (i === 0 || dp[i][j-1] >= dp[i-1][j])`; else extra. -/
def btChoice (u c : List Str) (i j : Nat) : BtStep :=
  if i = 0 ∧ j = 0 then BtStep.done
  else if 0 < i ∧ 0 < j ∧ mtype u c (i - 1) (j - 1) ≠ MType.wrong ∧
      lcsDp u c i j = lcsDp u c (i - 1) (j - 1) + 1 then BtStep.matched
  else if 0 < j ∧ (i = 0 ∨ lcsDp u c (i - 1) j ≤ lcsDp u c i (j - 1)) then BtStep.missing
  else BtStep.extra

/-- The backtrack loop of `lcsAlign` (source lines 99–113).  The source's
`while (i > 0 || j > 0)` with `result.unshift(...)` is rendered with a fuel
parameter (each iteration consumes at least one index, so fuel `i + j`
suffices; `lcsAlign` supplies exactly that). -/
def backtrack (u c : List Str) : Nat → Nat → Nat → List AlignItem
  | 0, _, _ => []
  | fuel + 1, i, j =>
    match btChoice u c i j with
    | BtStep.done => []
    | BtStep.matched =>
        backtrack u c fuel (i - 1) (j - 1) ++
          [⟨mtype u c (i - 1) (j - 1), some (u.getD (i - 1) []), some (c.getD (j - 1) [])⟩]
    | BtStep.missing =>
        backtrack u c fuel i (j - 1) ++ [⟨MType.missing, none, some (c.getD (j - 1) [])⟩]
    | BtStep.extra =>
        backtrack u c fuel (i - 1) j ++ [⟨MType.extra, some (u.getD (i - 1) []), none⟩]

/-- Source `lcsAlign` (line 74): LCS-based fuzzy word alignment. -/
def lcsAlign (userWords correctWords : List Str) : List AlignItem :=
  backtrack userWords correctWords (userWords.length + correctWords.length)
    userWords.length correctWords.length

/-- The per-item invariant of the alignment output (spec §3 AlignmentItem). -/
def shapeOK (it : AlignItem) : Prop :=
  (it.type = MType.missing → it.userWord = none ∧ it.correctWord ≠ none) ∧
  (it.type = MType.extra → it.correctWord = none ∧ it.userWord ≠ none) ∧
  ((it.type = MType.exact ∨ it.type = MType.near) → it.userWord ≠ none ∧ it.correctWord ≠ none)

/-- A (normalised) dictation segment (spec §3; source lines 1117–1126). -/
structure Segment where
  start_time : Rat
  end_time : Rat
  correct_text : Str
  hint : Str
  order : Nat
deriving DecidableEq, Repr

/-- The mutable session fields of `DictationMode` touched by
`checkAnswer` / `revealAnswer` / `nextSegment` / `render`. -/
structure DictState where
  currentIndex : Nat
  attempts : Nat
  correctCount : Nat
  isChecked : Bool
deriving DecidableEq, Repr

/-- `this.MAX_ATTEMPTS` (source line 368). -/
def MAX_ATTEMPTS : Nat := 3

/-- Which exit `checkAnswer` takes (the source signals these through the DOM;
here they are returned as data).  `accepted b` carries `isExactCorrect`;
`rejected matched total` carries the partial score `matched/total`. -/
inductive CheckOutcome where
  | alreadyChecked
  | emptyInput
  | accepted (isExact : Bool)
  | rejected (matched total : Nat)
deriving DecidableEq, Repr

/-- Source `DictationMode.checkAnswer` (lines 529–622), restricted to session
state and the reported outcome. -/
def checkAnswer (seg : Segment) (rawInput : Str) (st : DictState) : DictState × CheckOutcome :=
  if st.isChecked then (st, CheckOutcome.alreadyChecked)
  else
    let userText := trim rawInput
    if userText = [] then (st, CheckOutcome.emptyInput)
    else
      let uWords := splitWS userText
      let cWords := splitWS (trim seg.correct_text)
      let alignment := lcsAlign uWords cWords
      let exactCount := (alignment.filter fun a => a.type == MType.exact).length
      let nearCount := (alignment.filter fun a => a.type == MType.near).length
      let missingCount := (alignment.filter fun a => a.type == MType.missing).length
      let extraCount := (alignment.filter fun a => a.type == MType.extra).length
      let isExactCorrect := normalizeForCompare userText = normalizeForCompare seg.correct_text
      let isNearCorrect := missingCount = 0 ∧ extraCount = 0 ∧ 0 < nearCount
      if isExactCorrect ∨ isNearCorrect then
        if isExactCorrect then
          ({ st with isChecked := true, correctCount := st.correctCount + 1 },
            CheckOutcome.accepted true)
        else
          ({ st with isChecked := true, correctCount := st.correctCount + 1 },
            CheckOutcome.accepted false)
      else
        ({ st with attempts := st.attempts + 1 },
          CheckOutcome.rejected (exactCount + nearCount) cWords.length)

/-- Source `DictationMode.revealAnswer` (lines 624–646): marks the segment
done without touching `correctCount`, `attempts` or `currentIndex`. -/
def revealAnswer (st : DictState) : DictState := { st with isChecked := true }

/-- Source `DictationMode.render` (lines 434–473): past the end it shows the
summary (state untouched), otherwise it resets `isChecked` and `attempts`. -/
def render (segCount : Nat) (st : DictState) : DictState :=
  if segCount ≤ st.currentIndex then st
  else { st with isChecked := false, attempts := 0 }

/-- Source `DictationMode.nextSegment` (lines 648–652). -/
def nextSegment (segCount : Nat) (st : DictState) : DictState :=
  render segCount { st with currentIndex := st.currentIndex + 1 }

/-- A raw segment record as read from the page JSON (DOMContentLoaded handler,
source lines 1111–1126).  `rawStart`/`rawEnd` model the already-coalesced
`s.start_time ?? s.start` (resp. `end`) value, `none` when absent or
non-numeric (`parseFloat` → `NaN`); `text` models
`s.correct_text ?? (s.text || "")` and `hint` models `s.hint || ""`. -/
structure RawSegment where
  type : Str
  rawStart : Option Rat
  rawEnd : Option Rat
  text : Str
  hint : Str
deriving DecidableEq, Repr

/-- The type filter of the loader: keep when `type` is absent/empty, else only
`content` (case-insensitive). -/
def typeOk (t : Str) : Bool :=
  let tl := mapLower t
  tl == [] || tl == str "content"

/-- The loader's `filter(...).map(...)` normalisation (source lines 1111–1126):
`parseFloat(x) || 0` becomes `Option.getD 0`; `order` is the 1-based index in
the filtered list. -/
def loadSegments (raw : List RawSegment) : List Segment :=
  ((raw.filter fun s => typeOk s.type).enum).map fun p =>
    { start_time := p.2.rawStart.getD 0
      end_time := p.2.rawEnd.getD 0
      correct_text := p.2.text
      hint := p.2.hint
      order := p.1 + 1 }

/-- JS `v || 0` on the optional `opts.initialIndex` (absent → 0; `0` is falsy
but also maps to 0). -/
def jsOrZero (o : Option Int) : Int :=
  match o with
  | none => 0
  | some v => v

/-- The `currentIndex` clamp of the `DictationMode` constructor (source line
358): `Math.max(0, Math.min(opts.initialIndex || 0, Math.max(0,
segments.length - 1)))`. -/
def initialCurrentIndex (initialIndex : Option Int) (segLen : Nat) : Int :=
  max 0 (min (jsOrZero initialIndex) (max 0 ((segLen : Int) - 1)))

/-! Discrete-event model of `AudioSeeker` (source lines 174–277), for the
supersession behaviour; media times are in integer milliseconds, so the 0.5 s
seek tolerance of line 216/231 is 500.  A request `reqId` issued through `seekAndPlay` (with
the audio ready, so `checkAudioReady` holds: lines 209–239) sets
`audio.currentTime`, attaches a one-shot `seeked` listener and starts a 50 ms
poll interval capped at 30 attempts; `startPlayback` (lines 260–276) resolves
`play()`, fires the caller's `onPlay`, and when `!continuous && endTime`
starts a bound-check interval that pauses at `endTime` and fires `onEnd`.
Each timer/listener fires only as a separate event-loop task; a trace is a
sequence of such task firings.  Callback invocations are recorded in `log`. -/

/-- A fired caller callback: `onPlay` / `onEnd` of request `reqId`. -/
inductive PlayEvent where
  | started (reqId : Nat)
  | ended (reqId : Nat)
deriving DecidableEq, Repr

structure AudioModel where
  currentTime : Int
  paused : Bool
deriving DecidableEq, Repr

/-- A pending interval timer: the seek-confirmation poll of `seekAndPlay`
(with its closure state `attempts`) or the `endTime` bound check of
`startPlayback`. -/
inductive TimerKind where
  | seekPoll (target endTime : Int) (attempts : Nat)
  | boundCheck (endTime : Int)
deriving DecidableEq, Repr

structure Timer where
  reqId : Nat
  kind : TimerKind
deriving DecidableEq, Repr

/-- The controller state: the audio element, the attached one-shot `seeked`
listeners `(reqId, target, endTime)`, the live interval timers, the per-request
`seekCompleted` closure flags (as the list of requests whose flag is true),
and the log of caller callbacks fired so far. -/
structure SeekerModel where
  audio : AudioModel
  seekedListeners : List (Nat × Int × Int)
  timers : List Timer
  seekCompleted : List Nat
  log : List PlayEvent
deriving DecidableEq, Repr

/-- `Math.abs`. -/
def jsAbs (x : Int) : Int := if x < 0 then -x else x

def isSeekPollOf (reqId : Nat) (t : Timer) : Bool :=
  t.reqId == reqId &&
    match t.kind with
    | TimerKind.seekPoll _ _ _ => true
    | TimerKind.boundCheck _ => false

def isBoundCheckOf (reqId : Nat) (t : Timer) : Bool :=
  t.reqId == reqId &&
    match t.kind with
    | TimerKind.seekPoll _ _ _ => false
    | TimerKind.boundCheck _ => true

/-- `AudioSeeker.startPlayback` (lines 260–276) with `play()` resolving:
unpause, fire `onPlay`, and if `!continuous && endTime` register the
bound-check interval. -/
def startPlayback (reqId : Nat) (endTime : Int) (continuous : Bool) (s : SeekerModel) :
    SeekerModel :=
  { s with
    audio := { s.audio with paused := false }
    log := s.log ++ [PlayEvent.started reqId]
    timers := s.timers ++
      (if !continuous && endTime != 0 then [⟨reqId, TimerKind.boundCheck endTime⟩] else []) }

/-- `AudioSeeker.seekAndPlay` (lines 195–243) on the ready path
(`checkAudioReady` true): set `currentTime := targetTime`, attach the one-shot
`seeked` listener, start the poll interval with `attempts = 0`.  Note that
nothing belonging to an earlier request is cleared or detached. -/
def seekAndPlayReady (reqId : Nat) (target endTime : Int) (s : SeekerModel) : SeekerModel :=
  { s with
    audio := { s.audio with currentTime := target }
    seekedListeners := s.seekedListeners ++ [(reqId, target, endTime)]
    timers := s.timers ++ [⟨reqId, TimerKind.seekPoll target endTime 0⟩] }

/-- One firing of request `reqId`'s poll interval (lines 225–239): if
`seekCompleted`, clear the interval; else increment `attempts`, and when the
position is within 0.5 s of the target or 30 attempts are reached, clear the
interval, detach the own `seeked` listener, set `seekCompleted` and start
playback. -/
def pollTick (reqId : Nat) (s : SeekerModel) : SeekerModel :=
  match s.timers.find? (isSeekPollOf reqId) with
  | none => s
  | some t =>
    match t.kind with
    | TimerKind.boundCheck _ => s
    | TimerKind.seekPoll target endTime attempts =>
      if s.seekCompleted.contains reqId then
        { s with timers := s.timers.filter fun t2 => !isSeekPollOf reqId t2 }
      else
        let attempts' := attempts + 1
        if jsAbs (s.audio.currentTime - target) < 500 ∨ 30 ≤ attempts' then
          startPlayback reqId endTime false
            { s with
              timers := s.timers.filter fun t2 => !isSeekPollOf reqId t2
              seekedListeners := s.seekedListeners.filter fun l => !(l.1 == reqId)
              seekCompleted := reqId :: s.seekCompleted }
        else
          { s with timers := s.timers.map fun t2 =>
              if isSeekPollOf reqId t2 then ⟨reqId, TimerKind.seekPoll target endTime attempts'⟩
              else t2 }

/-- One firing of request `reqId`'s bound-check interval (lines 265–271): when
the audio is playing at or past `endTime`, pause, clear the interval, and fire
`onEnd`. -/
def boundTick (reqId : Nat) (s : SeekerModel) : SeekerModel :=
  match s.timers.find? (isBoundCheckOf reqId) with
  | none => s
  | some t =>
    match t.kind with
    | TimerKind.seekPoll _ _ _ => s
    | TimerKind.boundCheck endTime =>
      if ¬ s.audio.paused ∧ endTime ≤ s.audio.currentTime then
        { s with
          audio := { s.audio with paused := true }
          timers := s.timers.filter fun t2 => !isBoundCheckOf reqId t2
          log := s.log ++ [PlayEvent.ended reqId] }
      else s

def initialSeeker : SeekerModel := ⟨⟨0, true⟩, [], [], [], []⟩

/-- The supersession scenario: request A (`reqId 0`, segment [10 s, 13 s]) is
issued, then request B (`reqId 1`, segment [50 s, 53 s]) before A's seek confirms;
B's first poll tick confirms B's seek and starts B; A's poll keeps running and
reaches its 30-attempt cap, starting A's playback as well; A's bound check
then fires at B's position. -/
def supersededTrace : SeekerModel :=
  boundTick 0
    ((pollTick 0)^[30]
      (pollTick 1 (seekAndPlayReady 1 50000 53000 (seekAndPlayReady 0 10000 13000 initialSeeker))))

/-! Concrete fixtures used by the witness theorems. -/

/-- A fresh session state (`currentIndex 0`, `attempts 0`, `correctCount 0`,
`isChecked false`). -/
def stW : DictState := ⟨0, 0, 0, false⟩

/-- A segment whose reference text is `"ab cd"`. -/
def segW : Segment := ⟨0, 1, str "ab cd", [], 1⟩

/-- A segment whose reference text is `"alpha beta"`. -/
def seg2W : Segment := ⟨0, 1, str "alpha beta", [], 1⟩

/-- Word lists with no fuzzy match between them (`"xx"` vs `"yy"`). -/
def uW : List Str := [str "xx"]

def cW : List Str := [str "yy"]

end DF

namespace DF

/-! ### Supporting lemmas -/

theorem levenshtein_nil_left (b : Str) : levenshtein [] b = b.length := rfl

theorem levenshtein_nil_right (a : Str) : levenshtein a [] = a.length := by
  induction a with
  | nil => rfl
  | cons x xs ih =>
    show levRow (levFun xs) x [] = xs.length + 1
    simp only [levRow]
    exact congrArg (· + 1) ih

theorem levenshtein_cons_cons (x : Char) (xs : Str) (y : Char) (ys : Str) :
    levenshtein (x :: xs) (y :: ys) =
      if x = y then levenshtein xs ys
      else 1 + min (levenshtein xs ys)
        (min (levenshtein xs (y :: ys)) (levenshtein (x :: xs) ys)) := rfl

theorem levenshtein_self (a : Str) : levenshtein a a = 0 := by
  induction a with
  | nil => rfl
  | cons x xs ih => rw [levenshtein_cons_cons, if_pos rfl, ih]

theorem levenshtein_comm (a b : Str) : levenshtein a b = levenshtein b a := by
  induction a generalizing b with
  | nil =>
    rw [levenshtein_nil_left, levenshtein_nil_right]
  | cons x xs iha =>
    induction b with
    | nil => rw [levenshtein_nil_left, levenshtein_nil_right]
    | cons y ys ihb =>
      rw [levenshtein_cons_cons, levenshtein_cons_cons]
      by_cases hxy : x = y
      · rw [if_pos hxy, if_pos hxy.symm, iha]
      · rw [if_neg hxy, if_neg (fun h => hxy h.symm), iha ys, iha (y :: ys), ihb,
          Nat.min_comm (levenshtein (y :: ys) xs) (levenshtein ys (x :: xs))]

/-- `wordMatchType` never produces an alignment-only tag. -/
theorem wordMatchType_cases (a b : Str) :
    wordMatchType a b = MType.exact ∨ wordMatchType a b = MType.near ∨
      wordMatchType a b = MType.wrong := by
  simp only [wordMatchType]
  split_ifs <;> simp

theorem btChoice_done (u c : List Str) (i j : Nat) (h : btChoice u c i j = BtStep.done) :
    i = 0 ∧ j = 0 := by
  by_cases h1 : i = 0 ∧ j = 0
  · exact h1
  · exfalso
    rw [btChoice, if_neg h1] at h
    split_ifs at h

theorem btChoice_matched (u c : List Str) (i j : Nat)
    (h : btChoice u c i j = BtStep.matched) :
    0 < i ∧ 0 < j ∧ mtype u c (i - 1) (j - 1) ≠ MType.wrong := by
  by_cases h2 : 0 < i ∧ 0 < j ∧ mtype u c (i - 1) (j - 1) ≠ MType.wrong ∧
      lcsDp u c i j = lcsDp u c (i - 1) (j - 1) + 1
  · exact ⟨h2.1, h2.2.1, h2.2.2.1⟩
  · exfalso
    rw [btChoice] at h
    split_ifs at h

theorem btChoice_missing (u c : List Str) (i j : Nat)
    (h : btChoice u c i j = BtStep.missing) : 0 < j := by
  by_cases h3 : 0 < j ∧ (i = 0 ∨ lcsDp u c (i - 1) j ≤ lcsDp u c i (j - 1))
  · exact h3.1
  · exfalso
    rw [btChoice] at h
    split_ifs at h

theorem btChoice_extra (u c : List Str) (i j : Nat)
    (h : btChoice u c i j = BtStep.extra) :
    0 < i ∧ (j = 0 ∨ lcsDp u c i (j - 1) < lcsDp u c (i - 1) j) := by
  by_cases h1 : i = 0 ∧ j = 0
  · exfalso; rw [btChoice, if_pos h1] at h; exact BtStep.noConfusion h
  · by_cases h3 : 0 < j ∧ (i = 0 ∨ lcsDp u c (i - 1) j ≤ lcsDp u c i (j - 1))
    · exfalso
      by_cases h2 : 0 < i ∧ 0 < j ∧ mtype u c (i - 1) (j - 1) ≠ MType.wrong ∧
          lcsDp u c i j = lcsDp u c (i - 1) (j - 1) + 1
      · rw [btChoice, if_neg h1, if_pos h2] at h; exact BtStep.noConfusion h
      · rw [btChoice, if_neg h1, if_neg h2, if_pos h3] at h; exact BtStep.noConfusion h
    · push_neg at h1 h3
      rcases Nat.eq_zero_or_pos i with hi0 | hip
      · exact absurd hi0 (h3 (Nat.pos_of_ne_zero (h1 hi0))).1
      · refine ⟨hip, ?_⟩
        rcases Nat.eq_zero_or_pos j with hj0 | hjp
        · exact Or.inl hj0
        · exact Or.inr (h3 hjp).2

theorem take_succ_getD {α : Type} (l : List α) (k : Nat) (d : α) (hk : k < l.length) :
    l.take (k + 1) = l.take k ++ [l.getD k d] := by
  induction l generalizing k with
  | nil => simp at hk
  | cons x xs ih =>
    cases k with
    | zero => simp [List.getD]
    | succ k2 =>
      have hk2 : k2 < xs.length := by simpa using hk
      simp only [List.take_succ_cons, List.getD_cons_succ, List.cons_append]
      rw [ih k2 hk2]

theorem mtype_not_alignment_tag (u c : List Str) (i j : Nat) :
    mtype u c i j ≠ MType.missing ∧ mtype u c i j ≠ MType.extra := by
  unfold mtype
  rcases wordMatchType_cases (u.getD i []) (c.getD j []) with h | h | h <;> rw [h] <;>
    exact ⟨by simp, by simp⟩

theorem shapeOK_pair (t : MType) (a b : Str) (hm : t ≠ MType.missing)
    (hx : t ≠ MType.extra) : shapeOK ⟨t, some a, some b⟩ :=
  ⟨fun h => absurd h hm, fun h => absurd h hx, fun _ => ⟨by simp, by simp⟩⟩

theorem shapeOK_missing_item (w : Str) : shapeOK ⟨MType.missing, none, some w⟩ :=
  ⟨fun _ => ⟨rfl, by simp⟩, fun h => by simp at h, fun h => by rcases h with h | h <;> simp at h⟩

theorem shapeOK_extra_item (w : Str) : shapeOK ⟨MType.extra, some w, none⟩ :=
  ⟨fun h => by simp at h, fun _ => ⟨rfl, by simp⟩, fun h => by rcases h with h | h <;> simp at h⟩

/-- Main invariant of the backtrack loop: with enough fuel and in-range
indices, the emitted items spell out exactly the first `i` user words and the
first `j` reference words, and each item is well-formed. -/
theorem backtrack_spec (u c : List Str) :
    ∀ fuel i j, i + j ≤ fuel → i ≤ u.length → j ≤ c.length →
      (backtrack u c fuel i j).filterMap AlignItem.userWord = u.take i ∧
      (backtrack u c fuel i j).filterMap AlignItem.correctWord = c.take j ∧
      ∀ it ∈ backtrack u c fuel i j, shapeOK it := by
  intro fuel
  induction fuel with
  | zero =>
    intro i j hf hi hj
    have hi0 : i = 0 := by omega
    have hj0 : j = 0 := by omega
    subst hi0; subst hj0
    simp [backtrack]
  | succ fuel ih =>
    intro i j hf hi hj
    cases hc : btChoice u c i j with
    | done =>
      obtain ⟨hi0, hj0⟩ := btChoice_done u c i j hc
      subst hi0; subst hj0
      have hres : backtrack u c (fuel + 1) 0 0 = [] := by
        simp only [backtrack]; rw [hc]
      simp [hres]
    | matched =>
      obtain ⟨hip, hjp, hmt⟩ := btChoice_matched u c i j hc
      have hrec := ih (i - 1) (j - 1) (by omega) (by omega) (by omega)
      have hres : backtrack u c (fuel + 1) i j =
          backtrack u c fuel (i - 1) (j - 1) ++
            [⟨mtype u c (i - 1) (j - 1), some (u.getD (i - 1) []), some (c.getD (j - 1) [])⟩] := by
        simp only [backtrack]; rw [hc]
      rw [hres]
      refine ⟨?_, ?_, ?_⟩
      · rw [List.filterMap_append, hrec.1]
        have h1 : i - 1 + 1 = i := by omega
        have := take_succ_getD u (i - 1) [] (by omega)
        rw [h1] at this
        rw [this]; simp
      · rw [List.filterMap_append, hrec.2.1]
        have h1 : j - 1 + 1 = j := by omega
        have := take_succ_getD c (j - 1) [] (by omega)
        rw [h1] at this
        rw [this]; simp
      · intro it hit
        rcases List.mem_append.mp hit with hin | hin
        · exact hrec.2.2 it hin
        · have hone : it =
              ⟨mtype u c (i - 1) (j - 1), some (u.getD (i - 1) []), some (c.getD (j - 1) [])⟩ := by
            simpa using hin
          subst hone
          exact shapeOK_pair _ _ _ (mtype_not_alignment_tag u c (i - 1) (j - 1)).1
            (mtype_not_alignment_tag u c (i - 1) (j - 1)).2
    | missing =>
      have hjp := btChoice_missing u c i j hc
      have hrec := ih i (j - 1) (by omega) hi (by omega)
      have hres : backtrack u c (fuel + 1) i j =
          backtrack u c fuel i (j - 1) ++ [⟨MType.missing, none, some (c.getD (j - 1) [])⟩] := by
        simp only [backtrack]; rw [hc]
      rw [hres]
      refine ⟨?_, ?_, ?_⟩
      · rw [List.filterMap_append, hrec.1]
        simp
      · rw [List.filterMap_append, hrec.2.1]
        have h1 : j - 1 + 1 = j := by omega
        have := take_succ_getD c (j - 1) [] (by omega)
        rw [h1] at this
        rw [this]; simp
      · intro it hit
        rcases List.mem_append.mp hit with hin | hin
        · exact hrec.2.2 it hin
        · have hone : it = ⟨MType.missing, none, some (c.getD (j - 1) [])⟩ := by simpa using hin
          subst hone
          exact shapeOK_missing_item _
    | extra =>
      obtain ⟨hip, _⟩ := btChoice_extra u c i j hc
      have hrec := ih (i - 1) j (by omega) (by omega) hj
      have hres : backtrack u c (fuel + 1) i j =
          backtrack u c fuel (i - 1) j ++ [⟨MType.extra, some (u.getD (i - 1) []), none⟩] := by
        simp only [backtrack]; rw [hc]
      rw [hres]
      refine ⟨?_, ?_, ?_⟩
      · rw [List.filterMap_append, hrec.1]
        have h1 : i - 1 + 1 = i := by omega
        have := take_succ_getD u (i - 1) [] (by omega)
        rw [h1] at this
        rw [this]; simp
      · rw [List.filterMap_append, hrec.2.1]
        simp
      · intro it hit
        rcases List.mem_append.mp hit with hin | hin
        · exact hrec.2.2 it hin
        · have hone : it = ⟨MType.extra, some (u.getD (i - 1) []), none⟩ := by simpa using hin
          subst hone
          exact shapeOK_extra_item _

/-! ### Claim theorems -/

/-- C5: the source `levenshtein` satisfies `levenshtein(a, a) = 0`,
`levenshtein("", s) = length(s)`, `levenshtein(s, "") = length(s)`, and is
symmetric. -/
theorem levenshtein_props (a b s : Str) :
    levenshtein a a = 0 ∧ levenshtein [] s = s.length ∧ levenshtein s [] = s.length ∧
      levenshtein a b = levenshtein b a :=
  ⟨levenshtein_self a, levenshtein_nil_left s, levenshtein_nil_right s, levenshtein_comm a b⟩

/-- C2: `wordMatchType` returns `wrong` when either normalized form is empty,
`exact` when the normalized forms are equal, and otherwise — with threshold 0
for normalized reference length ≤ 3, 1 for length 4–5, 2 for length ≥ 6 —
returns `near` iff the threshold is positive and the Levenshtein distance of
the normalized forms is within it, else `wrong`. -/
theorem wordMatchType_characterisation (userWord correctWord : Str) :
    wordMatchType userWord correctWord =
      (if normalizeWord userWord = [] ∨ normalizeWord correctWord = [] then MType.wrong
       else if normalizeWord userWord = normalizeWord correctWord then MType.exact
       else if 0 < (if (normalizeWord correctWord).length ≤ 3 then 0
              else if (normalizeWord correctWord).length ≤ 5 then 1 else 2 : Nat) ∧
            levenshtein (normalizeWord userWord) (normalizeWord correctWord) ≤
              (if (normalizeWord correctWord).length ≤ 3 then 0
               else if (normalizeWord correctWord).length ≤ 5 then 1 else 2) then MType.near
       else MType.wrong) := by
  simp only [wordMatchType]
  by_cases h1 : normalizeWord userWord = [] ∨ normalizeWord correctWord = []
  · rw [if_pos h1, if_pos h1]
  · rw [if_neg h1, if_neg h1]
    by_cases h2 : normalizeWord userWord = normalizeWord correctWord
    · rw [if_pos h2, if_pos h2]
    · rw [if_neg h2, if_neg h2]
      generalize (if (normalizeWord correctWord).length ≤ 3 then 0
        else if (normalizeWord correctWord).length ≤ 5 then 1 else 2 : Nat) = th
      generalize levenshtein (normalizeWord userWord) (normalizeWord correctWord) = d
      split_ifs <;> first | rfl | omega

/-- C3: `lcsAlign` is total, the items carrying a user word (resp. reference
word) spell out the user (resp. reference) array in order, and each item's
`type` is consistent with which of its word fields are present. -/
theorem lcsAlign_shape (userWords correctWords : List Str) :
    (lcsAlign userWords correctWords).filterMap AlignItem.userWord = userWords ∧
    (lcsAlign userWords correctWords).filterMap AlignItem.correctWord = correctWords ∧
    ∀ it ∈ lcsAlign userWords correctWords, shapeOK it := by
  have h := backtrack_spec userWords correctWords
    (userWords.length + correctWords.length) userWords.length correctWords.length
    (le_refl _) (le_refl _) (le_refl _)
  simpa [lcsAlign, List.take_length] using h

/-- C4: in the backtrack of `lcsAlign`, at a step not reached via a match with
both a user and a reference word unconsumed, `dp[i][j-1] ≥ dp[i-1][j]` makes
the loop emit a `missing` item consuming the reference word (never `extra`),
and an `extra` item is emitted only when `i > 0` and either `j = 0` or
`dp[i][j-1] < dp[i-1][j]`. -/
theorem backtrack_tiebreak (u c : List Str) (i j : Nat)
    (hi : 0 < i) (hj : 0 < j)
    (hm : ¬(mtype u c (i - 1) (j - 1) ≠ MType.wrong ∧
        lcsDp u c i j = lcsDp u c (i - 1) (j - 1) + 1)) :
    (lcsDp u c (i - 1) j ≤ lcsDp u c i (j - 1) → btChoice u c i j = BtStep.missing) ∧
    (∀ fuel, lcsDp u c (i - 1) j ≤ lcsDp u c i (j - 1) →
      backtrack u c (fuel + 1) i j =
        backtrack u c fuel i (j - 1) ++ [⟨MType.missing, none, some (c.getD (j - 1) [])⟩]) ∧
    (∀ iA jA, btChoice u c iA jA = BtStep.extra →
      0 < iA ∧ (jA = 0 ∨ lcsDp u c iA (jA - 1) < lcsDp u c (iA - 1) jA)) := by
  have h1 : ¬(i = 0 ∧ j = 0) := fun hcon => by omega
  have h2 : ¬(0 < i ∧ 0 < j ∧ mtype u c (i - 1) (j - 1) ≠ MType.wrong ∧
      lcsDp u c i j = lcsDp u c (i - 1) (j - 1) + 1) :=
    fun hcon => hm ⟨hcon.2.2.1, hcon.2.2.2⟩
  refine ⟨?_, ?_, ?_⟩
  · intro hdp
    rw [btChoice, if_neg h1, if_neg h2, if_pos ⟨hj, Or.inr hdp⟩]
  · intro fuel hdp
    have hcm : btChoice u c i j = BtStep.missing := by
      rw [btChoice, if_neg h1, if_neg h2, if_pos ⟨hj, Or.inr hdp⟩]
    simp only [backtrack]
    rw [hcm]
  · exact fun iA jA hA => btChoice_extra u c iA jA hA

theorem backtrack_tiebreak_witness :
    btChoice uW cW 1 1 = BtStep.missing ∧
    backtrack uW cW 2 1 1 =
      backtrack uW cW 1 1 0 ++ [⟨MType.missing, none, some (str "yy")⟩] := by
  have h := backtrack_tiebreak uW cW 1 1 (by decide) (by decide) (by decide)
  exact ⟨h.1 (by decide), h.2.1 1 (by decide)⟩

/-- C10: the `DictationMode` constructor clamp equals
`max(0, min(initialIndex, segments.length − 1))` (defaulting to 0 when
`initialIndex` is absent or the segment list is empty), so a non-empty session
never starts at the terminal index. -/
theorem initialIndex_clamp (init : Option Int) (len : Nat) :
    initialCurrentIndex init len = max 0 (min (init.getD 0) ((len : Int) - 1)) ∧
    (0 < len → initialCurrentIndex init len < (len : Int)) := by
  cases init with
  | none =>
    simp only [initialCurrentIndex, jsOrZero, Option.getD_none]
    exact ⟨by omega, fun h => by omega⟩
  | some v =>
    simp only [initialCurrentIndex, jsOrZero, Option.getD_some]
    exact ⟨by omega, fun h => by omega⟩

theorem initialIndex_clamp_witness :
    initialCurrentIndex (some 7) 3 = max 0 (min ((some (7 : Int)).getD 0) ((3 : Int) - 1)) ∧
    initialCurrentIndex (some 7) 3 < (3 : Int) :=
  ⟨(initialIndex_clamp (some 7) 3).1, (initialIndex_clamp (some 7) 3).2 (by decide)⟩

/-- Evaluation of `checkAnswer` on a fresh state and non-empty input: the two
guards fall through and the result is decided by `isExactCorrect ∨
isNearCorrect`. -/
theorem checkAnswer_eval (seg : Segment) (rawInput : Str) (st : DictState)
    (hch : st.isChecked = false) (hne : trim rawInput ≠ []) :
    checkAnswer seg rawInput st =
      if normalizeForCompare (trim rawInput) = normalizeForCompare seg.correct_text ∨
          (((lcsAlign (splitWS (trim rawInput)) (splitWS (trim seg.correct_text))).filter
              fun a => a.type == MType.missing).length = 0 ∧
            ((lcsAlign (splitWS (trim rawInput)) (splitWS (trim seg.correct_text))).filter
              fun a => a.type == MType.extra).length = 0 ∧
            0 < ((lcsAlign (splitWS (trim rawInput)) (splitWS (trim seg.correct_text))).filter
              fun a => a.type == MType.near).length) then
        if normalizeForCompare (trim rawInput) = normalizeForCompare seg.correct_text then
          ({ st with isChecked := true, correctCount := st.correctCount + 1 },
            CheckOutcome.accepted true)
        else
          ({ st with isChecked := true, correctCount := st.correctCount + 1 },
            CheckOutcome.accepted false)
      else
        ({ st with attempts := st.attempts + 1 },
          CheckOutcome.rejected
            (((lcsAlign (splitWS (trim rawInput)) (splitWS (trim seg.correct_text))).filter
                fun a => a.type == MType.exact).length +
              ((lcsAlign (splitWS (trim rawInput)) (splitWS (trim seg.correct_text))).filter
                fun a => a.type == MType.near).length)
            (splitWS (trim seg.correct_text)).length) := by
  simp only [checkAnswer]
  rw [if_neg (by rw [hch]; simp), if_neg hne]

/-- C1: on a fresh state and input that is non-empty after trimming,
`checkAnswer` accepts iff the normalized texts agree verbatim or the alignment
has no `missing`/`extra` item and at least one `near` item; acceptance sets
`isChecked` and bumps `correctCount` by exactly one, and rejection reports the
partial score `(exact + near) / reference-word-count`. -/
theorem checkAnswer_accept_iff (seg : Segment) (rawInput : Str) (st : DictState)
    (hch : st.isChecked = false) (hne : trim rawInput ≠ []) :
    ((∃ b, (checkAnswer seg rawInput st).2 = CheckOutcome.accepted b) ↔
      (normalizeForCompare (trim rawInput) = normalizeForCompare seg.correct_text ∨
        (((lcsAlign (splitWS (trim rawInput)) (splitWS (trim seg.correct_text))).filter
            fun a => a.type == MType.missing).length = 0 ∧
          ((lcsAlign (splitWS (trim rawInput)) (splitWS (trim seg.correct_text))).filter
            fun a => a.type == MType.extra).length = 0 ∧
          0 < ((lcsAlign (splitWS (trim rawInput)) (splitWS (trim seg.correct_text))).filter
            fun a => a.type == MType.near).length))) ∧
    ((∃ b, (checkAnswer seg rawInput st).2 = CheckOutcome.accepted b) →
      (checkAnswer seg rawInput st).1.isChecked = true ∧
      (checkAnswer seg rawInput st).1.correctCount = st.correctCount + 1) ∧
    ((¬ ∃ b, (checkAnswer seg rawInput st).2 = CheckOutcome.accepted b) →
      (checkAnswer seg rawInput st).2 = CheckOutcome.rejected
        (((lcsAlign (splitWS (trim rawInput)) (splitWS (trim seg.correct_text))).filter
            fun a => a.type == MType.exact).length +
          ((lcsAlign (splitWS (trim rawInput)) (splitWS (trim seg.correct_text))).filter
            fun a => a.type == MType.near).length)
        (splitWS (trim seg.correct_text)).length) := by
  rw [checkAnswer_eval seg rawInput st hch hne]
  by_cases hacc : normalizeForCompare (trim rawInput) = normalizeForCompare seg.correct_text ∨
      (((lcsAlign (splitWS (trim rawInput)) (splitWS (trim seg.correct_text))).filter
          fun a => a.type == MType.missing).length = 0 ∧
        ((lcsAlign (splitWS (trim rawInput)) (splitWS (trim seg.correct_text))).filter
          fun a => a.type == MType.extra).length = 0 ∧
        0 < ((lcsAlign (splitWS (trim rawInput)) (splitWS (trim seg.correct_text))).filter
          fun a => a.type == MType.near).length)
  · rw [if_pos hacc]
    by_cases hex : normalizeForCompare (trim rawInput) = normalizeForCompare seg.correct_text
    · rw [if_pos hex]
      exact ⟨iff_of_true ⟨true, rfl⟩ hacc, fun _ => ⟨rfl, rfl⟩, fun hn => absurd ⟨true, rfl⟩ hn⟩
    · rw [if_neg hex]
      exact ⟨iff_of_true ⟨false, rfl⟩ hacc, fun _ => ⟨rfl, rfl⟩, fun hn => absurd ⟨false, rfl⟩ hn⟩
  · rw [if_neg hacc]
    refine ⟨iff_of_false ?_ hacc, fun hex => absurd hex ?_, fun _ => rfl⟩
    · rintro ⟨b, hb⟩
      exact CheckOutcome.noConfusion hb
    · rintro ⟨b, hb⟩
      exact CheckOutcome.noConfusion hb

theorem checkAnswer_accept_iff_witness :
    (checkAnswer segW (str "ab cd") stW).1.isChecked = true ∧
    (checkAnswer segW (str "ab cd") stW).1.correctCount = stW.correctCount + 1 :=
  (checkAnswer_accept_iff segW (str "ab cd") stW rfl (by decide)).2.1
    ((checkAnswer_accept_iff segW (str "ab cd") stW rfl (by decide)).1.mpr
      (Or.inl (by decide)))

/-- C6: a submission that trims to the empty string leaves the whole session
state unchanged (in particular `attempts`, so it does not count toward the
reveal counter), and on a fresh state it reports the distinct empty-input
outcome, short-circuiting before any alignment. -/
theorem checkAnswer_empty_noop (seg : Segment) (rawInput : Str) (st : DictState)
    (h : trim rawInput = []) :
    (checkAnswer seg rawInput st).1 = st ∧
    (st.isChecked = false → (checkAnswer seg rawInput st).2 = CheckOutcome.emptyInput) := by
  by_cases hc : st.isChecked = true
  · constructor
    · simp only [checkAnswer]
      rw [if_pos hc]
    · intro hf
      rw [hf] at hc
      exact absurd hc (by simp)
  · have heq : checkAnswer seg rawInput st = (st, CheckOutcome.emptyInput) := by
      simp only [checkAnswer]
      rw [if_neg hc, if_pos h]
    rw [heq]
    exact ⟨rfl, fun _ => rfl⟩

theorem checkAnswer_empty_noop_witness :
    (checkAnswer segW (str "   ") stW).1 = stW ∧
    (checkAnswer segW (str "   ") stW).2 = CheckOutcome.emptyInput :=
  ⟨(checkAnswer_empty_noop segW (str "   ") stW (by decide)).1,
   (checkAnswer_empty_noop segW (str "   ") stW (by decide)).2 rfl⟩

/-- A rejected check mutates the state by exactly `attempts + 1`. -/
theorem checkAnswer_rejected_state (seg : Segment) (rawInput : Str) (st : DictState)
    (h : ∃ k t, (checkAnswer seg rawInput st).2 = CheckOutcome.rejected k t) :
    (checkAnswer seg rawInput st).1 = { st with attempts := st.attempts + 1 } := by
  obtain ⟨k, t, hkt⟩ := h
  simp only [checkAnswer] at hkt ⊢
  split_ifs at hkt ⊢
  rfl

/-- C7: after three rejected checks on one segment starting from a freshly
rendered state, `attempts` reaches `MAX_ATTEMPTS = 3` (enabling reveal);
`revealAnswer` sets `isChecked` without touching `correctCount` or
`currentIndex`; `nextSegment` then advances `currentIndex` and its `render`
resets `attempts` and `isChecked`. -/
theorem reveal_flow (segCount : Nat) (seg : Segment) (r1 r2 r3 : Str) (st0 : DictState)
    (ha : st0.attempts = 0) (hix : st0.currentIndex + 1 < segCount)
    (h1 : ∃ k t, (checkAnswer seg r1 st0).2 = CheckOutcome.rejected k t)
    (h2 : ∃ k t, (checkAnswer seg r2 (checkAnswer seg r1 st0).1).2 = CheckOutcome.rejected k t)
    (h3 : ∃ k t, (checkAnswer seg r3
        (checkAnswer seg r2 (checkAnswer seg r1 st0).1).1).2 = CheckOutcome.rejected k t) :
    (checkAnswer seg r3 (checkAnswer seg r2 (checkAnswer seg r1 st0).1).1).1.attempts =
        MAX_ATTEMPTS ∧
    (revealAnswer (checkAnswer seg r3
        (checkAnswer seg r2 (checkAnswer seg r1 st0).1).1).1).isChecked = true ∧
    (revealAnswer (checkAnswer seg r3
        (checkAnswer seg r2 (checkAnswer seg r1 st0).1).1).1).correctCount = st0.correctCount ∧
    (revealAnswer (checkAnswer seg r3
        (checkAnswer seg r2 (checkAnswer seg r1 st0).1).1).1).currentIndex = st0.currentIndex ∧
    (nextSegment segCount (revealAnswer (checkAnswer seg r3
        (checkAnswer seg r2 (checkAnswer seg r1 st0).1).1).1)).currentIndex =
        st0.currentIndex + 1 ∧
    (nextSegment segCount (revealAnswer (checkAnswer seg r3
        (checkAnswer seg r2 (checkAnswer seg r1 st0).1).1).1)).attempts = 0 ∧
    (nextSegment segCount (revealAnswer (checkAnswer seg r3
        (checkAnswer seg r2 (checkAnswer seg r1 st0).1).1).1)).isChecked = false := by
  have e1 := checkAnswer_rejected_state seg r1 st0 h1
  rw [e1] at h2 h3 ⊢
  have e2 := checkAnswer_rejected_state seg r2 _ h2
  rw [e2] at h3 ⊢
  have e3 := checkAnswer_rejected_state seg r3 _ h3
  rw [e3]
  have hcond : ¬(segCount ≤ st0.currentIndex + 1) := by omega
  simp [revealAnswer, nextSegment, render, MAX_ATTEMPTS, ha, hcond]

theorem reveal_flow_witness :
    (nextSegment 2 (revealAnswer (checkAnswer seg2W (str "zz")
        (checkAnswer seg2W (str "zz")
          (checkAnswer seg2W (str "zz") stW).1).1).1)).attempts = 0 ∧
    (revealAnswer (checkAnswer seg2W (str "zz")
        (checkAnswer seg2W (str "zz")
          (checkAnswer seg2W (str "zz") stW).1).1).1).correctCount = stW.correctCount := by
  have h := reveal_flow 2 seg2W (str "zz") (str "zz") (str "zz") stW rfl (by decide)
    ⟨0, 2, by decide⟩ ⟨0, 2, by decide⟩ ⟨0, 2, by decide⟩
  exact ⟨h.2.2.2.2.2.1, h.2.2.1⟩

/-- C8: the loader does not reject time-malformed segments.  A raw `content`
segment with `end_time ≤ start_time` passes the load-time normalisation and
enters the session's segment list (the filter tests only the segment `type`).
This contradicts the spec's MalformedSegment requirement that such a segment
be rejected at load time. -/
theorem loadSegments_keeps_malformed :
    loadSegments [⟨str "content", some 5, some 3, str "abc", []⟩] =
      [⟨5, 3, str "abc", [], 1⟩] ∧
    ∀ g ∈ loadSegments [⟨str "content", some 5, some 3, str "abc", []⟩],
      g.end_time ≤ g.start_time := by
  constructor
  · decide
  · intro g hg
    have : g = ⟨5, 3, str "abc", [], 1⟩ := by
      have he : loadSegments [⟨str "content", some 5, some 3, str "abc", []⟩] =
          [⟨5, 3, str "abc", [], 1⟩] := by decide
      rw [he] at hg
      simpa using hg
    rw [this]
    norm_num

set_option maxRecDepth 100000 in
/-- C9: superseded callbacks do fire.  With request A issued and request B
issued before A's seek confirmation, B starts; A's still-live poll interval
reaches its cap, fires A's `onPlay` (a second started callback), and A's
stale bound-check interval then pauses the audio during B's segment and fires
A's `onEnd` — the seeker cancels nothing when a new request supersedes an old
one. -/
theorem superseded_callbacks_fire :
    supersededTrace.log =
      [PlayEvent.started 1, PlayEvent.started 0, PlayEvent.ended 0] ∧
    supersededTrace.audio.paused = true ∧
    PlayEvent.started 0 ∈ supersededTrace.log ∧
    PlayEvent.ended 0 ∈ supersededTrace.log := by decide

end DF

